import Mathlib

/-!
# Verification of the musicvirt MIDI note-processing / analysis core

Shallow embedding of the `MidiHandler` / `MidiEngine` family of classes
(`src/public/midi-handler.js`, `src/public/midi-data-analyzer.js`,
`src/public/midi-audio-engine.js`).

Times, durations and velocities are modelled as rationals (`ℚ`); MIDI
pitches, channels and GM program numbers as naturals.  The `Uint8Array`
spectrum is modelled as a total function `Nat → Nat` whose entries are
produced by the JavaScript `ToUint8` store conversion.
-/

namespace MusicVirt

/-- A note of a parsed MIDI track, as delivered by `@tonejs/midi`
(`note.midi`, `note.name`, `note.velocity`, `note.time`, `note.duration`). -/
structure RawNote where
  midi : Nat
  name : String
  velocity : ℚ
  time : ℚ
  duration : ℚ
deriving Repr, DecidableEq

/-- A MIDI track: its channel, its GM program number
(`track.instrument.number`) and its notes. -/
structure Track where
  channel : Nat
  program : Nat
  notes : List RawNote
deriving Repr, DecidableEq

/-- The note object built by `MidiHandler.processNotes`
(`midi-handler.js` lines 68-76). -/
structure NoteObj where
  note : Nat
  name : String
  velocity : ℚ
  startTime : ℚ
  endTime : ℚ
  duration : ℚ
  channel : Nat
deriving Repr, DecidableEq

/-- `processNotes` builds one `NoteObj` per raw note:
`endTime` is set to `note.time + note.duration`. -/
def mkNoteObj (channel : Nat) (n : RawNote) : NoteObj :=
  { note := n.midi
    name := n.name
    velocity := n.velocity
    startTime := n.time
    endTime := n.time + n.duration
    duration := n.duration
    channel := channel }

/-- The state `processNotes` mutates: `this.notes` and `this.channels`.
`channels` is modelled as an association list keyed by channel id. -/
structure HandlerState where
  notes : List NoteObj
  channels : List (Nat × List NoteObj)
deriving Repr, DecidableEq

/-- `if (!this.channels[channel]) this.channels[channel] = [];
this.channels[channel].push(noteObj);` — append the note to its channel's
bucket, creating the bucket on first use. -/
def channelsAdd (chs : List (Nat × List NoteObj)) (c : Nat) (n : NoteObj) :
    List (Nat × List NoteObj) :=
  if c ∈ chs.map Prod.fst then
    chs.map (fun p => if p.1 = c then (p.1, p.2 ++ [n]) else p)
  else
    chs ++ [(c, [n])]

/-- The body of `processNotes`'s track loop (`midi-handler.js` lines 64-81):
tracks with no notes are skipped, every note of a kept track is pushed onto
`this.notes` and onto its channel's bucket. -/
def processNotesStep (st : HandlerState) (tr : Track) : HandlerState :=
  if tr.notes.length = 0 then st
  else
    tr.notes.foldl
      (fun s n =>
        let obj := mkNoteObj tr.channel n
        { notes := s.notes ++ [obj]
          channels := channelsAdd s.channels tr.channel obj })
      st

/-- Comparator of the final `this.notes.sort((a, b) => a.startTime - b.startTime)`. -/
def startTimeLE (a b : NoteObj) : Prop := a.startTime ≤ b.startTime

instance : DecidableRel startTimeLE :=
  fun a b => inferInstanceAs (Decidable (a.startTime ≤ b.startTime))

instance : IsTotal NoteObj startTimeLE :=
  ⟨fun a b => le_total a.startTime b.startTime⟩

instance : IsTrans NoteObj startTimeLE :=
  ⟨fun _ _ _ => le_trans⟩

/-- `MidiHandler.processNotes` (`midi-handler.js` lines 60-83): flatten all
note-bearing tracks into `this.notes` and the per-channel index, then sort
`this.notes` ascending by `startTime`.  JavaScript `Array.prototype.sort`
is a stable sort; it is modelled by the stable `List.insertionSort`. -/
def processNotes (tracks : List Track) : HandlerState :=
  let st := tracks.foldl processNotesStep { notes := [], channels := [] }
  { notes := List.insertionSort startTimeLE st.notes, channels := st.channels }

/-! ## The analysis snapshot (`getAnalysis`, `midi-handler.js` lines 211-247) -/

/-- The active-note filter `currentTime >= n.startTime && currentTime <= n.endTime`. -/
def isActiveAt (t : ℚ) (n : NoteObj) : Bool :=
  decide (n.startTime ≤ t) && decide (t ≤ n.endTime)

/-- JavaScript truncation toward zero (`ToIntegerOrInfinity` on a finite value). -/
def jsTrunc (q : ℚ) : Int := if 0 ≤ q then ⌊q⌋ else ⌈q⌉

/-- The `ToUint8` conversion performed by a `Uint8Array` element store:
truncate toward zero, then reduce modulo 2^8. -/
def toUint8 (q : ℚ) : Nat := (jsTrunc q % 256).toNat

/-- The spectrum bin index `Math.floor(((n.note - 21) / 87) * 128)`. -/
def binOf (pitch : Nat) : Int := ⌊((pitch : ℚ) - 21) / 87 * 128⌋

/-- Accumulator of the `activeNotes.forEach` scan in `getAnalysis`:
the three energy buckets plus the 128-entry spectrum. -/
structure ScanAcc where
  bass : ℚ
  mid : ℚ
  high : ℚ
  spectrum : Nat → Nat

/-- One iteration of the `activeNotes.forEach` scan
(`midi-handler.js` lines 216-222): bucket the velocity by pitch range,
then write `Math.max(spectrum[bin], n.velocity * 255)` into the spectrum,
guarded by `bin >= 0 && bin < 128`. -/
def scanStep (acc : ScanAcc) (n : NoteObj) : ScanAcc :=
  let acc' :=
    if n.note < 48 then { acc with bass := acc.bass + n.velocity }
    else if n.note < 72 then { acc with mid := acc.mid + n.velocity }
    else { acc with high := acc.high + n.velocity }
  let bin := binOf n.note
  if 0 ≤ bin ∧ bin < 128 then
    { acc' with
      spectrum := fun i =>
        if i = bin.toNat then
          toUint8 (max ((acc'.spectrum i : ℚ)) (n.velocity * 255))
        else acc'.spectrum i }
  else acc'

/-- One of the 32 pseudo-spectrum bars (`midi-handler.js` lines 225-230):
the maximum of 4 consecutive spectrum entries, divided by 255. -/
def barOf (spec : Nat → Nat) (i : Nat) : ℚ :=
  let start := i * 128 / 32
  let m := (List.range 4).foldl (fun mx j => max mx (spec (start + j))) 0
  (m : ℚ) / 255

/-- The `bars` array pushed by the `for (let i = 0; i < 32; i++)` loop. -/
def barsOf (spec : Nat → Nat) : List ℚ :=
  (List.range 32).map (barOf spec)

/-- Per-channel entry of `getChannelAnalysis`. -/
structure ChannelEntry where
  channelId : Nat
  energy : ℚ
  noteCount : Nat
  isBeat : Bool
deriving Repr, DecidableEq

/-- `getChannelIds` (`midi-handler.js` line 249):
`Object.keys(this.channels).map(Number).sort((a, b) => a - b)`. -/
def getChannelIds (channels : List (Nat × List NoteObj)) : List Nat :=
  List.insertionSort (· ≤ ·) (channels.map Prod.fst)

/-- Lookup of `this.channels[chId]`. -/
def channelNotes (channels : List (Nat × List NoteObj)) (c : Nat) : List NoteObj :=
  ((channels.find? (fun p => p.1 == c)).map Prod.snd).getD []

/-- The beat predicate `Math.abs(n.startTime - currentTime) < 0.02`. -/
def beatsAt (t : ℚ) (n : NoteObj) : Bool :=
  decide (|n.startTime - t| < 2 / 100)

/-- `MidiHandler.getChannelAnalysis` (`midi-handler.js` lines 251-258). -/
def getChannelAnalysis (channels : List (Nat × List NoteObj)) (currentTime : ℚ) :
    List ChannelEntry :=
  (getChannelIds channels).map fun chId =>
    let notes := (channelNotes channels chId).filter (isActiveAt currentTime)
    let energy := notes.foldl (fun sum n => sum + n.velocity) 0
    { channelId := chId
      energy := min 1 energy
      noteCount := notes.length
      isBeat := notes.any (beatsAt currentTime) }

/-- The analysis snapshot returned by `getAnalysis`
(`midi-handler.js` lines 232-246).  The `Uint8Array` fields are modelled
as total functions. -/
structure Analysis where
  spectrum : Nat → Nat
  waveform : Nat → Nat
  bars : List ℚ
  bass : ℚ
  mid : ℚ
  high : ℚ
  bassNorm : ℚ
  midNorm : ℚ
  highNorm : ℚ
  totalEnergy : ℚ
  isBeat : Bool
  channelData : List ChannelEntry

/-- `MidiHandler.getAnalysis` (`midi-handler.js` lines 211-247). -/
def getAnalysis (st : HandlerState) (currentTime : ℚ) : Analysis :=
  let activeNotes := st.notes.filter (isActiveAt currentTime)
  let acc := activeNotes.foldl scanStep
    { bass := 0, mid := 0, high := 0, spectrum := fun _ => 0 }
  { spectrum := acc.spectrum
    waveform := fun _ => 128
    bars := barsOf acc.spectrum
    bass := min 1 acc.bass
    mid := min 1 acc.mid
    high := min 1 acc.high
    bassNorm := min 1 acc.bass
    midNorm := min 1 acc.mid
    highNorm := min 1 acc.high
    totalEnergy := min 1 (acc.bass + acc.mid + acc.high) * 255
    isBeat := activeNotes.any (beatsAt currentTime)
    channelData := getChannelAnalysis st.channels currentTime }

/-! ## The playback scheduler (`scheduleAllNotes`, `midi-handler.js` lines 138-190)

`Tone.Transport` is modelled as a list of pending `(event id, delay)` pairs;
`this.scheduledEvents` as the list of ids registered by the last schedule.
`Tone.Transport.schedule` hands out fresh, strictly increasing event ids,
modelled with a `nextId` counter. -/

structure SchedState where
  transport : List (Nat × ℚ)
  scheduledEvents : List Nat
  nextId : Nat
deriving Repr, DecidableEq

/-- The per-note body of the scheduling loop (`midi-handler.js` lines 160-188):
notes before the offset are skipped (`if (note.time < fromTime) return`);
otherwise one callback is registered at `note.time - fromTime` and its id
is pushed onto `this.scheduledEvents`. -/
def schedNoteStep (fromTime : ℚ) (s : SchedState) (n : RawNote) : SchedState :=
  if n.time < fromTime then s
  else
    { transport := s.transport ++ [(s.nextId, n.time - fromTime)]
      scheduledEvents := s.scheduledEvents ++ [s.nextId]
      nextId := s.nextId + 1 }

/-- `MidiHandler.scheduleAllNotes` (`midi-handler.js` lines 138-190):
first `this.scheduledEvents.forEach(id => Tone.Transport.clear(id));
this.scheduledEvents = [];`, then for each track and note register a future
callback. -/
def scheduleAllNotes (tracks : List Track) (fromTime : ℚ) (st : SchedState) :
    SchedState :=
  let cleared := st.transport.filter (fun p => !decide (p.1 ∈ st.scheduledEvents))
  tracks.foldl (fun s tr => tr.notes.foldl (schedNoteStep fromTime) s)
    { transport := cleared, scheduledEvents := [], nextId := st.nextId }

/-! ## Instrument loading (`midi-audio-engine.js`, `midi-handler.js`) -/

/-- The `GM_TO_SAMPLE` table mapping GM program numbers to sample-library
names (`midi-audio-engine.js` lines 28-38, identical copy in
`midi-handler.js` lines 299-309). -/
def GM_TO_SAMPLE : Nat → Option String
  | 0 => some "piano" | 1 => some "piano" | 2 => some "piano" | 3 => some "piano"
  | 4 => some "piano" | 5 => some "piano" | 6 => some "piano" | 7 => some "piano"
  | 8 => some "piano" | 11 => some "xylophone" | 12 => some "xylophone"
  | 13 => some "xylophone"
  | 24 => some "guitar-nylon" | 25 => some "guitar-acoustic"
  | 26 => some "guitar-electric" | 27 => some "guitar-electric"
  | 32 => some "bass-electric" | 33 => some "bass-electric" | 34 => some "bass-electric"
  | 40 => some "violin" | 41 => some "violin" | 42 => some "cello" | 43 => some "contrabass"
  | 48 => some "violin" | 49 => some "cello" | 50 => some "cello" | 51 => some "cello"
  | 56 => some "trumpet" | 57 => some "trombone" | 58 => some "tuba"
  | 60 => some "french-horn" | 61 => some "trumpet"
  | 68 => some "oboe" | 70 => some "bassoon" | 71 => some "clarinet" | 73 => some "flute"
  | 104 => some "harp" | 114 => some "xylophone"
  | _ => none

/-- The sample manifest (`manifest.json`): library name → sample file names. -/
def Manifest : Type := List (String × List String)

/-- `manifest[lib] && manifest[lib].length > 0`. -/
def manifestHas (manifest : Manifest) (lib : String) : Bool :=
  match List.lookup lib manifest with
  | some files => files.length > 0
  | none => false

/-- `MidiEngine.getLibraryName` (`midi-audio-engine.js` lines 328-331):
`GM_TO_SAMPLE[prg] || 'piano'`, falling back to `'piano'` when the manifest
has no samples for the mapped library. -/
def getLibraryName (manifest : Manifest) (prg : Nat) : String :=
  let lib := (GM_TO_SAMPLE prg).getD "piano"
  if manifestHas manifest lib then lib else "piano"

/-- Insertion into the JavaScript `Set` `libsToLoad` (preserves insertion
order, no duplicates). -/
def setAdd (s : List String) (x : String) : List String :=
  if x ∈ s then s else s ++ [x]

/-- The `libsToLoad` set built by `MidiEngine.loadInstruments`
(`midi-audio-engine.js` lines 277-283): the resolved library of every
note-bearing, non-percussion track. -/
def libsToLoad (tracks : List Track) (manifest : Manifest) : List String :=
  tracks.foldl
    (fun s tr =>
      if tr.notes.length > 0 ∧ tr.channel ≠ 9 then
        setAdd s (getLibraryName manifest tr.program)
      else s)
    []

/-- The sampler-construction loop of `MidiEngine.loadInstruments`
(`midi-audio-engine.js` lines 288-314): `for (const lib of libsToLoad)
{ if (this.samplers[lib]) continue; ... this.samplers[lib] = sampler; }`.
Returns the updated cache keys together with the number of
`new Tone.Sampler` constructions performed. -/
def engineLoadInstruments (tracks : List Track) (manifest : Manifest)
    (samplers : List String) : List String × Nat :=
  (libsToLoad tracks manifest).foldl
    (fun acc lib => if lib ∈ acc.1 then acc else (acc.1 ++ [lib], acc.2 + 1))
    (samplers, 0)

/-- `MidiHandler.loadInstruments` of the sampler-based handler
(`midi-handler.js` lines 428-497): one `new Tone.Sampler` per note-bearing,
non-percussion track whose resolved library has at least one sample file
in the manifest.  Returns the number of sampler constructions. -/
def handlerLoadInstruments (tracks : List Track) (manifest : Manifest) : Nat :=
  tracks.foldl
    (fun count tr =>
      if tr.notes.length = 0 ∨ tr.channel = 9 then count
      else
        let lib := getLibraryName manifest tr.program
        let availableFiles := (List.lookup lib manifest).getD []
        if availableFiles.length = 0 then count else count + 1)
    0

/-! ## The playback callback (`midi-handler.js` lines 163-186) -/

/-- What the scheduled callback triggers for one note. -/
inductive PlayAction where
  | drumKick
  | drumHat
  | silence
  | fallbackSynth
  | samplerPlay
deriving Repr, DecidableEq

/-- Status of `this.instruments[index]` at the moment the callback fires:
a loaded soundfont instrument, the `'fallback_synth'` marker, or `undefined`. -/
inductive InstrumentStatus where
  | loaded
  | fallbackMarker
  | missing
deriving Repr, DecidableEq

/-- The dispatch performed inside the `Tone.Transport.schedule` callback
(`midi-handler.js` lines 163-186).  On channel 9: MIDI 35/36 trigger the
membrane (kick) synth, MIDI 42-46 trigger the metal (hi-hat) synth, every
other percussion note triggers nothing; the whole branch is guarded by
`if (this.drumSynths)`.  On other channels: a missing or failed instrument
falls back to the triangle synth, otherwise the soundfont instrument plays.
(The `catch` that re-falls-back when `currentInstrument.play` throws is not
modelled; the embedded instrument never throws.) -/
def noteCallbackAction (trackChannel : Nat) (drumSynthsSet : Bool)
    (inst : InstrumentStatus) (noteMidi : Nat) : PlayAction :=
  if trackChannel = 9 then
    if drumSynthsSet then
      if noteMidi = 35 ∨ noteMidi = 36 then .drumKick
      else if 42 ≤ noteMidi ∧ noteMidi ≤ 46 then .drumHat
      else .silence
    else .silence
  else
    match inst with
    | .missing => if drumSynthsSet then .fallbackSynth else .silence
    | .fallbackMarker => if drumSynthsSet then .fallbackSynth else .silence
    | .loaded => .samplerPlay

/-- Status of `this.samplers[index]` in the sampler-based handler when its
callback fires: a loaded `Tone.Sampler`, one still loading, or none. -/
inductive SamplerStatus where
  | loaded
  | notLoaded
  | absent
deriving Repr, DecidableEq

/-- The dispatch performed inside the `Tone.Transport.schedule` callback of
the sampler-based handler's `scheduleAllNotes` (`midi-handler.js` lines
542-555): every channel-9 note triggers the kick (membrane) voice, regardless
of its note number (the hi-hat synth created alongside it is never used
there); on other channels a loaded sampler plays the note, and a missing or
still-loading sampler plays nothing (a console warning only) — this variant
has no fallback melodic synth. -/
def hqNoteCallbackAction (trackChannel : Nat) (sampler : SamplerStatus) : PlayAction :=
  if trackChannel = 9 then .drumKick
  else
    match sampler with
    | .loaded => .samplerPlay
    | .notLoaded => .silence
    | .absent => .silence

/-! ## Specification-side helpers and concrete inputs used by the theorems -/

/-- Note used by the C1 counterexample: a single note starting at `t = 1.000`. -/
def c1Note : NoteObj :=
  { note := 60, name := "C4", velocity := 1, startTime := 1, endTime := 2,
    duration := 1, channel := 0 }

/-- Note used by the C3 example: a low-pitch (bass-range) note at velocity 1. -/
def lowNote : NoteObj :=
  { note := 30, name := "Gb1", velocity := 1, startTime := 0, endTime := 1,
    duration := 1, channel := 0 }

set_option maxRecDepth 10000

/-- Handler state holding 50 copies of `lowNote`, all active at time 0. -/
def fiftyLowState : HandlerState :=
  { notes := List.replicate 50 lowNote, channels := [(0, List.replicate 50 lowNote)] }

/-- Invariant: every stored note satisfies `endTime = startTime + duration`,
both in the flat list and in every channel bucket. -/
def WFState (st : HandlerState) : Prop :=
  (∀ n ∈ st.notes, n.endTime = n.startTime + n.duration) ∧
  (∀ p ∈ st.channels, ∀ n ∈ p.2, n.endTime = n.startTime + n.duration)

/-- Name for the active-note sublist `notes.filter(n => startTime <= t <= endTime)`. -/
def activeNotesAt (st : HandlerState) (t : ℚ) : List NoteObj :=
  st.notes.filter (isActiveAt t)

/-- Invariant of `processNotes`: the channel-index keys are duplicate-free and
are exactly the channels of the stored notes. -/
def KeysInv (st : HandlerState) : Prop :=
  (st.channels.map Prod.fst).Nodup ∧
  ∀ c, c ∈ st.channels.map Prod.fst ↔ ∃ n ∈ st.notes, n.channel = c

/-- Delays of the notes one track schedules from offset `fromTime`. -/
def trackDelays (fromTime : ℚ) (tr : Track) : List ℚ :=
  (tr.notes.filter fun n => !decide (n.time < fromTime)).map fun n => n.time - fromTime

/-- Delays of all notes scheduled from offset `fromTime`, in scheduling order. -/
def schedDelays (tracks : List Track) (fromTime : ℚ) : List ℚ :=
  tracks.flatMap (trackDelays fromTime)

/-- Pair a list of delays with consecutive fresh event ids starting at `i`. -/
def enumFrom (i : Nat) : List ℚ → List (Nat × ℚ)
  | [] => []
  | d :: ds => (i, d) :: enumFrom (i + 1) ds

/-- Inputs for the C4 witness: one pending event from a previous schedule and
one note at time 2, re-scheduled from offset 1. -/
def c4State : SchedState := { transport := [(0, 1)], scheduledEvents := [0], nextId := 1 }

def c4Track : Track :=
  { channel := 0, program := 0,
    notes := [{ midi := 60, name := "C4", velocity := 1, time := 2, duration := 1 }] }

/-- C5 counterexample input: two note-bearing melodic tracks whose GM
program 0 both resolve to the `"piano"` library. -/
def c5Tracks : List Track :=
  [{ channel := 0, program := 0,
     notes := [{ midi := 60, name := "C4", velocity := 1, time := 0, duration := 1 }] },
   { channel := 1, program := 0,
     notes := [{ midi := 64, name := "E4", velocity := 1, time := 0, duration := 1 }] }]

/-- Manifest with one sample for the piano library. -/
def c5Manifest : Manifest := [("piano", ["A0.mp3"])]

/-! ## Shared helper lemmas -/

section Proofs

set_option maxRecDepth 10000

attribute [local semireducible] Rat.add Rat.sub Rat.mul Rat.inv

/-- An invariant preserved by every step of a left fold holds of the result. -/
theorem foldl_preserve {α β : Type} (P : β → Prop) (f : β → α → β) :
    ∀ (l : List α) (init : β), P init → (∀ b a, a ∈ l → P b → P (f b a)) →
      P (l.foldl f init)
  | [], _, h0, _ => h0
  | a :: l, init, h0, hstep =>
    foldl_preserve P f l (f init a) (hstep init a (List.mem_cons_self a l) h0)
      (fun b x hx hb => hstep b x (List.mem_cons_of_mem a hx) hb)

/-- C1, counterexample: with a single note starting at `1.000`, the query time
`t = 0.99` satisfies `|startTime - t| = 0.01 < 0.02`, yet `getAnalysis`
reports `isBeat = false`, because the beat scan ranges only over *active*
notes (`startTime ≤ t ≤ endTime`) and the note has not started yet. -/
theorem C1_beat_counterexample :
    (∃ n ∈ [c1Note], |n.startTime - (99 / 100 : ℚ)| < 2 / 100) ∧
    (getAnalysis { notes := [c1Note], channels := [(0, [c1Note])] }
        (99 / 100)).isBeat = false := by
  exact ⟨⟨c1Note, List.mem_singleton_self _, by decide⟩, by decide⟩

/-- C1 (amended): the analysis snapshot's beat flag is true iff at least one
*active* note — one with `startTime ≤ t ≤ endTime` — has `|startTime - t| < 0.02`.
In particular a note starting at `t = 1.000` with sufficient duration yields
`isBeat = true` exactly on `[1.000, 1.019]`, not on `[0.981, 1.019]`. -/
theorem C1_beat_flag_amended (st : HandlerState) (t : ℚ) :
    (getAnalysis st t).isBeat = true ↔
      ∃ n ∈ st.notes, n.startTime ≤ t ∧ t ≤ n.endTime ∧ |n.startTime - t| < 2 / 100 := by
  simp only [getAnalysis, List.any_eq_true, List.mem_filter, isActiveAt, beatsAt,
    Bool.and_eq_true, decide_eq_true_eq]
  constructor
  · rintro ⟨n, ⟨hn, h1, h2⟩, h3⟩
    exact ⟨n, hn, h1, h2, h3⟩
  · rintro ⟨n, hn, h1, h2, h3⟩
    exact ⟨n, ⟨hn, h1, h2⟩, h3⟩

/-- Witness for `C1_beat_flag_amended` at the single-note state, queried at
the note's own start time. -/
theorem C1_beat_flag_amended_witness :
    (getAnalysis { notes := [c1Note], channels := [(0, [c1Note])] } 1).isBeat = true ↔
      ∃ n ∈ [c1Note], n.startTime ≤ 1 ∧ (1 : ℚ) ≤ n.endTime ∧ |n.startTime - 1| < 2 / 100 :=
  C1_beat_flag_amended { notes := [c1Note], channels := [(0, [c1Note])] } 1

/-- C3: the bass, mid and high energies of every analysis snapshot are each
clamped to at most 1, no matter how many notes are active or how large their
velocities; 50 simultaneous low-pitch notes at velocity 1.0 give a bass value
of exactly 1. -/
theorem C3_energy_clamped :
    (∀ st t, (getAnalysis st t).bass ≤ 1 ∧ (getAnalysis st t).mid ≤ 1 ∧
      (getAnalysis st t).high ≤ 1) ∧
    (getAnalysis fiftyLowState 0).bass = 1 := by
  constructor
  · intro st t
    refine ⟨?_, ?_, ?_⟩ <;> exact min_le_left _ _
  · decide

/-- C8, counterexample: a channel-9 note with MIDI number 50 (GM high tom)
triggers *nothing*: no drum-synthesis voice at all.  There is no snare voice,
and percussion notes outside `{35, 36} ∪ [42, 46]` are silently dropped. -/
theorem C8_percussion_counterexample :
    noteCallbackAction 9 true .loaded 50 = .silence ∧
    noteCallbackAction 9 true .loaded 50 ≠ .drumKick ∧
    noteCallbackAction 9 true .loaded 50 ≠ .drumHat := by decide

/-- C8 (amended): in both cited `scheduleAllNotes` variants, a scheduled
channel-9 note never reaches a melodic sampler or the fallback melodic synth.
The voice is not selected by full GM kick/snare/hi-hat ranges: in the
soundfont-based handler, while the drum synths exist, MIDI 35/36 trigger the
kick voice, MIDI 42-46 the hi-hat voice, and every other percussion note —
snare included — triggers nothing; in the sampler-based handler every
channel-9 note triggers the kick voice regardless of its note number. -/
theorem C8_percussion_amended (ds : Bool) (inst : InstrumentStatus)
    (sampler : SamplerStatus) (midi : Nat) :
    (noteCallbackAction 9 ds inst midi ≠ .fallbackSynth ∧
     noteCallbackAction 9 ds inst midi ≠ .samplerPlay) ∧
    (ds = true →
      ((midi = 35 ∨ midi = 36) → noteCallbackAction 9 ds inst midi = .drumKick) ∧
      ((42 ≤ midi ∧ midi ≤ 46) → noteCallbackAction 9 ds inst midi = .drumHat) ∧
      (¬(midi = 35 ∨ midi = 36) → ¬(42 ≤ midi ∧ midi ≤ 46) →
        noteCallbackAction 9 ds inst midi = .silence)) ∧
    (hqNoteCallbackAction 9 sampler = .drumKick ∧
     hqNoteCallbackAction 9 sampler ≠ .fallbackSynth ∧
     hqNoteCallbackAction 9 sampler ≠ .samplerPlay) := by
  refine ⟨?_, ?_, ?_⟩
  · cases ds with
    | false => unfold noteCallbackAction; simp
    | true =>
      unfold noteCallbackAction
      split_ifs <;> simp_all
  · rintro rfl
    refine ⟨?_, ?_, ?_⟩
    · rintro (rfl | rfl) <;> (unfold noteCallbackAction; simp)
    · intro h
      have hne : ¬(midi = 35 ∨ midi = 36) := by omega
      unfold noteCallbackAction
      rw [if_pos rfl, if_pos rfl, if_neg hne, if_pos h]
    · intro h1 h2
      unfold noteCallbackAction
      rw [if_pos rfl, if_pos rfl, if_neg h1, if_neg h2]
  · unfold hqNoteCallbackAction
    simp

/-- Witness for `C8_percussion_amended` with loaded synths and samplers: the
hi-hat mapping at `midi = 44`, the silence branch at `midi = 40`, and the
sampler-based variant's unconditional kick. -/
theorem C8_percussion_amended_witness :
    noteCallbackAction 9 true .loaded 44 ≠ .fallbackSynth ∧
    noteCallbackAction 9 true .loaded 44 = .drumHat ∧
    noteCallbackAction 9 true .loaded 40 = .silence ∧
    hqNoteCallbackAction 9 .loaded = .drumKick :=
  ⟨(C8_percussion_amended true .loaded .loaded 44).1.1,
   ((C8_percussion_amended true .loaded .loaded 44).2.1 rfl).2.1 (by decide),
   ((C8_percussion_amended true .loaded .loaded 40).2.1 rfl).2.2 (by decide) (by decide),
   (C8_percussion_amended true .loaded .loaded 40).2.2.1⟩

/-- Membership in a `channelsAdd` bucket comes either from an old bucket or
is the newly pushed note. -/
theorem channelsAdd_note_mem {chs : List (Nat × List NoteObj)} {c : Nat} {x : NoteObj}
    {p : Nat × List NoteObj} (hp : p ∈ channelsAdd chs c x) {n : NoteObj} (hn : n ∈ p.2) :
    (∃ q ∈ chs, n ∈ q.2) ∨ n = x := by
  unfold channelsAdd at hp
  split_ifs at hp with h
  · obtain ⟨q, hq, hpq⟩ := List.mem_map.mp hp
    by_cases hc : q.1 = c
    · rw [if_pos hc] at hpq
      subst hpq
      rcases List.mem_append.mp hn with h1 | h1
      · exact Or.inl ⟨q, hq, h1⟩
      · exact Or.inr (List.mem_singleton.mp h1)
    · rw [if_neg hc] at hpq
      subst hpq
      exact Or.inl ⟨q, hq, hn⟩
  · rcases List.mem_append.mp hp with h1 | h1
    · exact Or.inl ⟨p, h1, hn⟩
    · rw [List.mem_singleton.mp h1] at hn
      exact Or.inr (List.mem_singleton.mp hn)

/-- One track of `processNotes` preserves the well-formedness invariant. -/
theorem processNotesStep_wf (st : HandlerState) (tr : Track) (h : WFState st) :
    WFState (processNotesStep st tr) := by
  unfold processNotesStep
  split_ifs with hlen
  · exact h
  · apply foldl_preserve WFState _ tr.notes st h
    intro s r _ hs
    constructor
    · intro n hn
      rcases List.mem_append.mp hn with h1 | h1
      · exact hs.1 n h1
      · rw [List.mem_singleton.mp h1]; rfl
    · intro p hp n hn
      rcases channelsAdd_note_mem hp hn with ⟨q, hq, hq2⟩ | h1
      · exact hs.2 q hq n hq2
      · rw [h1]; rfl

/-- C2: after `processNotes`, the flat note list is sorted non-decreasingly by
`startTime`, and every note — in the flat list and in the per-channel index —
satisfies `endTime = startTime + duration`. -/
theorem C2_processNotes_sorted_wf (tracks : List Track) :
    List.Sorted startTimeLE (processNotes tracks).notes ∧
    (∀ n ∈ (processNotes tracks).notes, n.endTime = n.startTime + n.duration) ∧
    (∀ p ∈ (processNotes tracks).channels, ∀ n ∈ p.2,
      n.endTime = n.startTime + n.duration) := by
  have hwf : WFState (tracks.foldl processNotesStep { notes := [], channels := [] }) := by
    apply foldl_preserve WFState processNotesStep tracks _ _ _
    · exact ⟨fun n hn => absurd hn (List.not_mem_nil n),
        fun p hp => absurd hp (List.not_mem_nil p)⟩
    · intro b a _ hb
      exact processNotesStep_wf b a hb
  refine ⟨?_, ?_, ?_⟩
  · exact List.sorted_insertionSort startTimeLE _
  · intro n hn
    exact hwf.1 n ((List.mem_insertionSort startTimeLE).mp hn)
  · exact hwf.2

/-- Witness for `C2_processNotes_sorted_wf` on the concrete two-track file. -/
theorem C2_processNotes_sorted_wf_witness :
    List.Sorted startTimeLE (processNotes c5Tracks).notes ∧
    (∀ n ∈ (processNotes c5Tracks).notes, n.endTime = n.startTime + n.duration) ∧
    (∀ p ∈ (processNotes c5Tracks).channels, ∀ n ∈ p.2,
      n.endTime = n.startTime + n.duration) :=
  C2_processNotes_sorted_wf c5Tracks

/-- Helper for C6: the pseudo-spectrum bars of the all-zero spectrum. -/
theorem barOf_zero (i : Nat) : barOf (fun _ => 0) i = 0 := by
  simp [barOf, List.range_succ]

/-- C6: loading a file with zero note-bearing tracks yields an empty note
list, an empty channel index and an all-zero analysis snapshot at every
query time (the embedding is total, so no exception can be thrown). -/
theorem C6_empty_file_zero_analysis (tracks : List Track) (t : ℚ)
    (h : ∀ tr ∈ tracks, tr.notes = []) :
    (processNotes tracks).notes = [] ∧
    (processNotes tracks).channels = [] ∧
    (getAnalysis (processNotes tracks) t).bass = 0 ∧
    (getAnalysis (processNotes tracks) t).mid = 0 ∧
    (getAnalysis (processNotes tracks) t).high = 0 ∧
    (getAnalysis (processNotes tracks) t).totalEnergy = 0 ∧
    (∀ i, (getAnalysis (processNotes tracks) t).spectrum i = 0) ∧
    (getAnalysis (processNotes tracks) t).bars = List.replicate 32 0 ∧
    (getAnalysis (processNotes tracks) t).channelData = [] ∧
    (getAnalysis (processNotes tracks) t).isBeat = false := by
  have hst : processNotes tracks = { notes := [], channels := [] } := by
    have hfold : tracks.foldl processNotesStep { notes := [], channels := [] }
        = { notes := [], channels := [] } := by
      refine foldl_preserve (fun st => st = { notes := [], channels := [] })
        processNotesStep tracks { notes := [], channels := [] } rfl ?_
      intro b a ha hb
      rw [hb]
      simp [processNotesStep, h a ha]
    simp [processNotes, hfold]
  rw [hst]
  refine ⟨rfl, rfl, ?_, ?_, ?_, ?_, ?_, ?_, ?_, ?_⟩
  · norm_num [getAnalysis]
  · norm_num [getAnalysis]
  · norm_num [getAnalysis]
  · norm_num [getAnalysis]
  · intro i
    rfl
  · show (List.range 32).map (barOf fun _ => 0) = List.replicate 32 0
    rw [show (barOf fun _ => 0) = fun _ => (0 : ℚ) from funext barOf_zero]
    simp [List.eq_replicate_iff]
  · rfl
  · rfl

/-- Witness for `C6_empty_file_zero_analysis` on a one-track file whose track
has no notes, queried at time 0. -/
theorem C6_empty_file_zero_analysis_witness :
    (∀ tr ∈ [({ channel := 0, program := 0, notes := [] } : Track)], tr.notes = []) ∧
    (processNotes [({ channel := 0, program := 0, notes := [] } : Track)]).notes = [] ∧
    (getAnalysis (processNotes [({ channel := 0, program := 0, notes := [] } : Track)]) 0).bass = 0 := by
  refine ⟨?_, ?_, ?_⟩
  · intro tr htr
    rw [List.mem_singleton.mp htr]
  · exact (C6_empty_file_zero_analysis _ 0
      (fun tr htr => by rw [List.mem_singleton.mp htr])).1
  · exact (C6_empty_file_zero_analysis _ 0
      (fun tr htr => by rw [List.mem_singleton.mp htr])).2.2.1

/-- The bass bucket of one scan step. -/
theorem scanStep_bass (acc : ScanAcc) (n : NoteObj) :
    (scanStep acc n).bass = if n.note < 48 then acc.bass + n.velocity else acc.bass := by
  simp only [scanStep]
  split_ifs <;> rfl

/-- The mid bucket of one scan step. -/
theorem scanStep_mid (acc : ScanAcc) (n : NoteObj) :
    (scanStep acc n).mid =
      if n.note < 48 then acc.mid
      else if n.note < 72 then acc.mid + n.velocity else acc.mid := by
  simp only [scanStep]
  split_ifs <;> rfl

/-- The high bucket of one scan step. -/
theorem scanStep_high (acc : ScanAcc) (n : NoteObj) :
    (scanStep acc n).high =
      if n.note < 48 then acc.high
      else if n.note < 72 then acc.high else acc.high + n.velocity := by
  simp only [scanStep]
  split_ifs <;> rfl

/-- The fold of `scanStep` accumulates the bass bucket as the velocity sum of
the pitch-below-48 notes. -/
theorem scanFold_bass (ns : List NoteObj) (init : ScanAcc) :
    (ns.foldl scanStep init).bass
      = init.bass + ((ns.filter fun n => decide (n.note < 48)).map NoteObj.velocity).sum := by
  induction ns generalizing init with
  | nil => simp
  | cons n ns ih =>
    rw [List.foldl_cons, ih, scanStep_bass]
    by_cases h : n.note < 48 <;> simp [List.filter_cons, h, add_assoc]

/-- The fold of `scanStep` accumulates the mid bucket as the velocity sum of
the pitch-48-to-71 notes. -/
theorem scanFold_mid (ns : List NoteObj) (init : ScanAcc) :
    (ns.foldl scanStep init).mid
      = init.mid
        + ((ns.filter fun n => decide (48 ≤ n.note ∧ n.note < 72)).map NoteObj.velocity).sum := by
  induction ns generalizing init with
  | nil => simp
  | cons n ns ih =>
    rw [List.foldl_cons, ih, scanStep_mid]
    by_cases h1 : n.note < 48
    · have h : ¬(48 ≤ n.note ∧ n.note < 72) := by omega
      simp [List.filter_cons, h1, h]
    · by_cases h2 : n.note < 72
      · have h : 48 ≤ n.note ∧ n.note < 72 := by omega
        simp [List.filter_cons, h1, h2, h, add_assoc]
      · have h : ¬(48 ≤ n.note ∧ n.note < 72) := by omega
        simp [List.filter_cons, h1, h2, h]

/-- The fold of `scanStep` accumulates the high bucket as the velocity sum of
the pitch-72-and-above notes. -/
theorem scanFold_high (ns : List NoteObj) (init : ScanAcc) :
    (ns.foldl scanStep init).high
      = init.high + ((ns.filter fun n => decide (72 ≤ n.note)).map NoteObj.velocity).sum := by
  induction ns generalizing init with
  | nil => simp
  | cons n ns ih =>
    rw [List.foldl_cons, ih, scanStep_high]
    by_cases h1 : n.note < 48
    · have h : ¬(72 ≤ n.note) := by omega
      simp [List.filter_cons, h1, h]
    · by_cases h2 : n.note < 72
      · have h : ¬(72 ≤ n.note) := by omega
        simp [List.filter_cons, h1, h2, h]
      · have h : 72 ≤ n.note := by omega
        simp [List.filter_cons, h1, h2, h, add_assoc]

/-- The three pitch ranges partition every note list's velocity sum. -/
theorem bucket_partition (ns : List NoteObj) :
    ((ns.filter fun n => decide (n.note < 48)).map NoteObj.velocity).sum
      + ((ns.filter fun n => decide (48 ≤ n.note ∧ n.note < 72)).map NoteObj.velocity).sum
      + ((ns.filter fun n => decide (72 ≤ n.note)).map NoteObj.velocity).sum
      = (ns.map NoteObj.velocity).sum := by
  induction ns with
  | nil => simp
  | cons n ns ih =>
    by_cases h1 : n.note < 48
    · rw [List.filter_cons_of_pos (by simp [h1]),
        List.filter_cons_of_neg (by simp; omega),
        List.filter_cons_of_neg (by simp; omega),
        List.map_cons, List.sum_cons, List.map_cons, List.sum_cons]
      linarith
    · by_cases h2 : n.note < 72
      · rw [List.filter_cons_of_neg (by simp [h1]),
          List.filter_cons_of_pos (by simp; omega),
          List.filter_cons_of_neg (by simp; omega),
          List.map_cons, List.sum_cons, List.map_cons, List.sum_cons]
        linarith
      · rw [List.filter_cons_of_neg (by simp [h1]),
          List.filter_cons_of_neg (by simp; omega),
          List.filter_cons_of_pos (by simp; omega),
          List.map_cons, List.sum_cons, List.map_cons, List.sum_cons]
        linarith

/-- C7: `getAnalysis` accumulates energy only over active notes
(`startTime ≤ t ≤ endTime`); each active note's velocity goes to the bass
bucket when its pitch is below 48, to the mid bucket when it is in 48-71, and
to the high bucket when it is 72 or above — and the three buckets together
account for every active note exactly once. -/
theorem C7_bucket_accumulation (st : HandlerState) (t : ℚ) :
    (getAnalysis st t).bass
      = min 1 (((activeNotesAt st t).filter fun n => decide (n.note < 48)).map
          NoteObj.velocity).sum ∧
    (getAnalysis st t).mid
      = min 1 (((activeNotesAt st t).filter fun n => decide (48 ≤ n.note ∧ n.note < 72)).map
          NoteObj.velocity).sum ∧
    (getAnalysis st t).high
      = min 1 (((activeNotesAt st t).filter fun n => decide (72 ≤ n.note)).map
          NoteObj.velocity).sum ∧
    (((activeNotesAt st t).filter fun n => decide (n.note < 48)).map NoteObj.velocity).sum
      + (((activeNotesAt st t).filter fun n => decide (48 ≤ n.note ∧ n.note < 72)).map
          NoteObj.velocity).sum
      + (((activeNotesAt st t).filter fun n => decide (72 ≤ n.note)).map NoteObj.velocity).sum
      = ((activeNotesAt st t).map NoteObj.velocity).sum := by
  refine ⟨?_, ?_, ?_, bucket_partition _⟩
  · show min 1 ((activeNotesAt st t).foldl scanStep
      { bass := 0, mid := 0, high := 0, spectrum := fun _ => 0 }).bass = _
    rw [scanFold_bass]
    norm_num
  · show min 1 ((activeNotesAt st t).foldl scanStep
      { bass := 0, mid := 0, high := 0, spectrum := fun _ => 0 }).mid = _
    rw [scanFold_mid]
    norm_num
  · show min 1 ((activeNotesAt st t).foldl scanStep
      { bass := 0, mid := 0, high := 0, spectrum := fun _ => 0 }).high = _
    rw [scanFold_high]
    norm_num

/-- Spectrum characterization of one scan step: the write happens only at the
guarded in-range bin index. -/
theorem scanStep_spectrum (acc : ScanAcc) (n : NoteObj) (i : Nat) :
    (scanStep acc n).spectrum i
      = if (0 ≤ binOf n.note ∧ binOf n.note < 128) ∧ i = (binOf n.note).toNat then
          toUint8 (max ((acc.spectrum i : ℚ)) (n.velocity * 255))
        else acc.spectrum i := by
  simp only [scanStep]
  split_ifs <;> simp_all

/-- Pitches below 21 map to a negative spectrum bin. -/
theorem binOf_neg_of_lt {p : Nat} (hp : p < 21) : binOf p < 0 := by
  unfold binOf
  rw [Int.floor_lt]
  push_cast
  have hp21 : (p : ℚ) < 21 := by exact_mod_cast hp
  have h87 : (0 : ℚ) < 87 := by norm_num
  rw [div_mul_eq_mul_div, div_lt_iff₀ h87]
  nlinarith

/-- Pitches above 108 map to a spectrum bin of at least 128. -/
theorem binOf_ge_of_gt {p : Nat} (hp : 108 < p) : 128 ≤ binOf p := by
  unfold binOf
  rw [Int.le_floor]
  push_cast
  have hp109 : (109 : ℚ) ≤ p := by exact_mod_cast hp
  have h87 : (0 : ℚ) < 87 := by norm_num
  rw [div_mul_eq_mul_div, le_div_iff₀ h87]
  nlinarith

/-- C9: `getAnalysis` never writes the 128-entry spectrum out of bounds —
every entry at index 128 or beyond stays 0 — and a note with pitch below 21
or above 108 fails the `bin >= 0 && bin < 128` guard, so its scan step leaves
the spectrum unchanged. -/
theorem C9_spectrum_bounds :
    (∀ st t i, 128 ≤ i → (getAnalysis st t).spectrum i = 0) ∧
    (∀ (acc : ScanAcc) (n : NoteObj), n.note < 21 ∨ 108 < n.note →
      (scanStep acc n).spectrum = acc.spectrum) := by
  have hstep : ∀ (acc : ScanAcc) (n : NoteObj), n.note < 21 ∨ 108 < n.note →
      (scanStep acc n).spectrum = acc.spectrum := by
    intro acc n h
    funext i
    rw [scanStep_spectrum, if_neg]
    rintro ⟨⟨hge, hlt⟩, -⟩
    rcases h with h | h
    · exact absurd hge (not_le.mpr (binOf_neg_of_lt h))
    · exact absurd hlt (not_lt.mpr (binOf_ge_of_gt h))
  refine ⟨?_, hstep⟩
  intro st t i hi
  show ((st.notes.filter (isActiveAt t)).foldl scanStep
    { bass := 0, mid := 0, high := 0, spectrum := fun _ => 0 }).spectrum i = 0
  refine foldl_preserve (fun acc : ScanAcc => acc.spectrum i = 0) scanStep
    (st.notes.filter (isActiveAt t)) _ rfl ?_
  intro acc n _ hacc
  rw [scanStep_spectrum, if_neg, hacc]
  rintro ⟨⟨hge, hlt⟩, hieq⟩
  omega

/-- Witness for `C9_spectrum_bounds`: index 128 of the spectrum of a loaded
single-note state is 0, and a pitch-10 note leaves any spectrum untouched. -/
theorem C9_spectrum_bounds_witness :
    (getAnalysis { notes := [lowNote], channels := [(0, [lowNote])] } 0).spectrum 128 = 0 ∧
    (scanStep { bass := 0, mid := 0, high := 0, spectrum := fun _ => 0 }
        { note := 10, name := "As0", velocity := 1, startTime := 0, endTime := 1,
          duration := 1, channel := 0 }).spectrum
      = ({ bass := 0, mid := 0, high := 0, spectrum := fun _ => 0 } : ScanAcc).spectrum :=
  ⟨C9_spectrum_bounds.1 _ 0 128 le_rfl,
   C9_spectrum_bounds.2 _ _ (Or.inl (by norm_num))⟩

/-- Keys of the channel index after `channelsAdd`: unchanged when the channel
already has a bucket, extended by the new channel otherwise. -/
theorem channelsAdd_keys (chs : List (Nat × List NoteObj)) (c : Nat) (x : NoteObj) :
    (channelsAdd chs c x).map Prod.fst
      = if c ∈ chs.map Prod.fst then chs.map Prod.fst else chs.map Prod.fst ++ [c] := by
  unfold channelsAdd
  split_ifs with h
  · rw [List.map_map]
    apply List.map_congr_left
    intro p _
    by_cases hc : p.1 = c <;> simp [hc]
  · simp

/-- Membership in the channel-index keys after `channelsAdd`. -/
theorem channelsAdd_keys_mem (chs : List (Nat × List NoteObj)) (c : Nat) (x : NoteObj)
    (d : Nat) :
    d ∈ (channelsAdd chs c x).map Prod.fst ↔ d ∈ chs.map Prod.fst ∨ d = c := by
  rw [channelsAdd_keys]
  split_ifs with h
  · constructor
    · exact Or.inl
    · rintro (hd | rfl)
      · exact hd
      · exact h
  · simp

/-- `channelsAdd` keeps the channel-index keys duplicate-free. -/
theorem channelsAdd_keys_nodup {chs : List (Nat × List NoteObj)}
    (h : (chs.map Prod.fst).Nodup) (c : Nat) (x : NoteObj) :
    ((channelsAdd chs c x).map Prod.fst).Nodup := by
  rw [channelsAdd_keys]
  split_ifs with hc
  · exact h
  · simp [List.nodup_append, h, hc]

/-- One track of `processNotes` preserves the key invariant. -/
theorem processNotesStep_keys (st : HandlerState) (tr : Track) (h : KeysInv st) :
    KeysInv (processNotesStep st tr) := by
  unfold processNotesStep
  split_ifs with hlen
  · exact h
  · apply foldl_preserve KeysInv _ tr.notes st h
    intro s r _ hs
    refine ⟨channelsAdd_keys_nodup hs.1 _ _, ?_⟩
    intro c
    rw [channelsAdd_keys_mem, hs.2 c]
    constructor
    · rintro (⟨n, hn, hc⟩ | rfl)
      · exact ⟨n, List.mem_append.mpr (Or.inl hn), hc⟩
      · exact ⟨mkNoteObj tr.channel r,
          List.mem_append.mpr (Or.inr (List.mem_singleton_self _)), rfl⟩
    · rintro ⟨n, hn, hc⟩
      rcases List.mem_append.mp hn with h1 | h1
      · exact Or.inl ⟨n, h1, hc⟩
      · rw [List.mem_singleton.mp h1] at hc
        exact Or.inr hc.symm

/-- With duplicate-free keys, the sorted channel-id list is strictly
ascending. -/
theorem getChannelIds_chain {channels : List (Nat × List NoteObj)}
    (h : (channels.map Prod.fst).Nodup) :
    List.Chain' (· < ·) (getChannelIds channels) := by
  have hs : List.Pairwise (· ≤ ·) (getChannelIds channels) :=
    List.sorted_insertionSort _ _
  have hn : (getChannelIds channels).Nodup :=
    (List.perm_insertionSort (· ≤ ·) (channels.map Prod.fst)).nodup_iff.mpr h
  exact List.Pairwise.chain' ((hs.and hn).imp fun hab => lt_of_le_of_ne hab.1 hab.2)

/-- The channel ids of the per-channel entries are exactly `getChannelIds`. -/
theorem getChannelAnalysis_ids (channels : List (Nat × List NoteObj)) (t : ℚ) :
    (getChannelAnalysis channels t).map ChannelEntry.channelId
      = getChannelIds channels := by
  unfold getChannelAnalysis
  rw [List.map_map]
  have hcomp : List.map
      (ChannelEntry.channelId ∘ fun chId =>
        let notes := (channelNotes channels chId).filter (isActiveAt t)
        let energy := notes.foldl (fun sum n => sum + n.velocity) 0
        ({ channelId := chId, energy := min 1 energy, noteCount := notes.length,
           isBeat := notes.any (beatsAt t) } : ChannelEntry))
      (getChannelIds channels) = List.map (fun a => a) (getChannelIds channels) :=
    List.map_congr_left (fun a _ => rfl)
  rw [hcomp, List.map_id']

/-- C10: `getChannelAnalysis` returns exactly one entry per channel that has
at least one note anywhere in the file, in strictly ascending channel-id
order, and every entry's energy is clamped to at most 1. -/
theorem C10_channel_analysis (tracks : List Track) (t : ℚ) :
    List.Chain' (· < ·)
      ((getChannelAnalysis (processNotes tracks).channels t).map ChannelEntry.channelId) ∧
    (∀ c : Nat,
      c ∈ (getChannelAnalysis (processNotes tracks).channels t).map ChannelEntry.channelId
        ↔ ∃ n ∈ (processNotes tracks).notes, n.channel = c) ∧
    (∀ e ∈ getChannelAnalysis (processNotes tracks).channels t, e.energy ≤ 1) := by
  have hinv : KeysInv (tracks.foldl processNotesStep { notes := [], channels := [] }) := by
    refine foldl_preserve KeysInv processNotesStep tracks
      { notes := [], channels := [] } ⟨List.nodup_nil, by simp⟩ ?_
    intro b a _ hb
    exact processNotesStep_keys b a hb
  refine ⟨?_, ?_, ?_⟩
  · rw [getChannelAnalysis_ids]
    exact getChannelIds_chain hinv.1
  · intro c
    rw [getChannelAnalysis_ids]
    show c ∈ getChannelIds
      (tracks.foldl processNotesStep { notes := [], channels := [] }).channels ↔ _
    rw [getChannelIds,
      (List.perm_insertionSort (· ≤ ·) _).mem_iff, hinv.2 c]
    constructor
    · rintro ⟨n, hn, hc⟩
      exact ⟨n, (List.mem_insertionSort startTimeLE).mpr hn, hc⟩
    · rintro ⟨n, hn, hc⟩
      exact ⟨n, (List.mem_insertionSort startTimeLE).mp hn, hc⟩
  · intro e he
    obtain ⟨chId, _, rfl⟩ := List.mem_map.mp he
    exact min_le_left _ _

/-- Witness for `C10_channel_analysis` on the concrete two-track file at
time 0. -/
theorem C10_channel_analysis_witness :
    List.Chain' (· < ·)
      ((getChannelAnalysis (processNotes c5Tracks).channels 0).map ChannelEntry.channelId) ∧
    (∀ c : Nat,
      c ∈ (getChannelAnalysis (processNotes c5Tracks).channels 0).map ChannelEntry.channelId
        ↔ ∃ n ∈ (processNotes c5Tracks).notes, n.channel = c) ∧
    (∀ e ∈ getChannelAnalysis (processNotes c5Tracks).channels 0, e.energy ≤ 1) :=
  C10_channel_analysis c5Tracks 0

theorem enumFrom_append (i : Nat) (l1 l2 : List ℚ) :
    enumFrom i (l1 ++ l2) = enumFrom i l1 ++ enumFrom (i + l1.length) l2 := by
  induction l1 generalizing i with
  | nil => simp [enumFrom]
  | cons d ds ih =>
    show (i, d) :: enumFrom (i + 1) (ds ++ l2)
        = ((i, d) :: enumFrom (i + 1) ds) ++ enumFrom (i + (d :: ds).length) l2
    rw [List.cons_append, ih (i + 1), List.length_cons,
      show i + 1 + ds.length = i + (ds.length + 1) from by omega]

theorem enumFrom_length (i : Nat) (l : List ℚ) : (enumFrom i l).length = l.length := by
  induction l generalizing i with
  | nil => rfl
  | cons d ds ih => simp [enumFrom, ih]

/-- Every event id handed out by `enumFrom i` is at least `i`. -/
theorem enumFrom_fst_ge (i : Nat) (l : List ℚ) :
    ∀ p ∈ enumFrom i l, i ≤ p.1 := by
  induction l generalizing i with
  | nil => intro p hp; exact absurd hp (List.not_mem_nil p)
  | cons d ds ih =>
    intro p hp
    rcases List.mem_cons.mp hp with rfl | hp
    · exact le_refl i
    · exact le_trans (Nat.le_succ i) (ih (i + 1) p hp)

/-- Closed form of the per-track scheduling fold: it appends one transport
event and one scheduled-event id per kept note, consuming fresh ids. -/
theorem schedNoteFold (fromTime : ℚ) (ns : List RawNote) (s : SchedState) :
    ns.foldl (schedNoteStep fromTime) s =
      { transport := s.transport
          ++ enumFrom s.nextId ((ns.filter fun n => !decide (n.time < fromTime)).map
              fun n => n.time - fromTime)
        scheduledEvents := s.scheduledEvents
          ++ (enumFrom s.nextId ((ns.filter fun n => !decide (n.time < fromTime)).map
              fun n => n.time - fromTime)).map Prod.fst
        nextId := s.nextId
          + ((ns.filter fun n => !decide (n.time < fromTime)).map
              fun n => n.time - fromTime).length } := by
  induction ns generalizing s with
  | nil => simp [enumFrom]
  | cons n ns ih =>
    rw [List.foldl_cons]
    by_cases h : n.time < fromTime
    · rw [show schedNoteStep fromTime s n = s from by simp [schedNoteStep, h], ih,
        List.filter_cons_of_neg (by simp [h])]
    · have hstep : schedNoteStep fromTime s n =
          { transport := s.transport ++ [(s.nextId, n.time - fromTime)]
            scheduledEvents := s.scheduledEvents ++ [s.nextId]
            nextId := s.nextId + 1 } := by
        simp [schedNoteStep, h]
      rw [hstep, ih, List.filter_cons_of_pos (by simp [h]), List.map_cons]
      simp only [enumFrom, List.map_cons, List.length_cons, SchedState.mk.injEq]
      refine ⟨?_, ?_, ?_⟩
      · simp [List.append_assoc]
      · simp [List.append_assoc]
      · omega

/-- Closed form of the whole scheduling loop over all tracks. -/
theorem schedTracksFold (fromTime : ℚ) (tracks : List Track) (s : SchedState) :
    tracks.foldl (fun s tr => tr.notes.foldl (schedNoteStep fromTime) s) s =
      { transport := s.transport ++ enumFrom s.nextId (schedDelays tracks fromTime)
        scheduledEvents := s.scheduledEvents
          ++ (enumFrom s.nextId (schedDelays tracks fromTime)).map Prod.fst
        nextId := s.nextId + (schedDelays tracks fromTime).length } := by
  induction tracks generalizing s with
  | nil => simp [schedDelays, enumFrom]
  | cons tr trs ih =>
    rw [List.foldl_cons, schedNoteFold, ih]
    simp only [schedDelays, List.flatMap_cons, enumFrom_append, List.length_append,
      trackDelays, SchedState.mk.injEq]
    refine ⟨?_, ?_, ?_⟩
    · simp [List.append_assoc]
    · simp [List.append_assoc, List.map_append]
    · omega

/-- Closed form of `scheduleAllNotes`: every previously scheduled event id is
cleared from the transport, and exactly the kept notes are re-registered with
fresh ids. -/
theorem scheduleAllNotes_spec (tracks : List Track) (fromTime : ℚ) (st : SchedState) :
    scheduleAllNotes tracks fromTime st =
      { transport := st.transport.filter (fun p => !decide (p.1 ∈ st.scheduledEvents))
          ++ enumFrom st.nextId (schedDelays tracks fromTime)
        scheduledEvents := (enumFrom st.nextId (schedDelays tracks fromTime)).map Prod.fst
        nextId := st.nextId + (schedDelays tracks fromTime).length } := by
  unfold scheduleAllNotes
  rw [schedTracksFold]
  rfl

/-- C4: re-scheduling from offset `f` registers exactly one callback per note
with `startTime ≥ f` (and none below), and — provided every previously
registered id predates the fresh-id counter, which `Tone.Transport` guarantees
by construction — no previously scheduled callback remains in the transport. -/
theorem C4_reschedule_exact (tracks : List Track) (fromTime : ℚ) (st : SchedState)
    (hS : ∀ id ∈ st.scheduledEvents, id < st.nextId) :
    (scheduleAllNotes tracks fromTime st).scheduledEvents.length
        = (tracks.map fun tr => tr.notes.countP fun n => decide (fromTime ≤ n.time)).sum ∧
    ∀ id ∈ st.scheduledEvents,
      id ∉ (scheduleAllNotes tracks fromTime st).transport.map Prod.fst := by
  rw [scheduleAllNotes_spec]
  constructor
  · show ((enumFrom st.nextId (schedDelays tracks fromTime)).map Prod.fst).length = _
    rw [List.length_map, enumFrom_length]
    unfold schedDelays
    rw [List.length_flatMap]
    congr 1
    apply List.map_congr_left
    intro tr _
    simp only [Function.comp_apply, trackDelays]
    rw [List.length_map, ← List.countP_eq_length_filter]
    apply List.countP_congr
    intro n _
    rw [← decide_not]
    simp [not_lt]
  · intro id hid
    rw [List.map_append, List.mem_append]
    rintro (hmem | hmem)
    · obtain ⟨p, hp, rfl⟩ := List.mem_map.mp hmem
      have hkeep := List.of_mem_filter hp
      simp only [Bool.not_eq_true', decide_eq_false_iff_not] at hkeep
      exact hkeep hid
    · obtain ⟨p, hp, rfl⟩ := List.mem_map.mp hmem
      exact absurd (hS _ hid) (not_lt.mpr (enumFrom_fst_ge _ _ p hp))

/-- Witness for `C4_reschedule_exact` at the concrete one-note re-schedule. -/
theorem C4_reschedule_exact_witness :
    (∀ id ∈ c4State.scheduledEvents, id < c4State.nextId) ∧
    ((scheduleAllNotes [c4Track] 1 c4State).scheduledEvents.length
        = ([c4Track].map fun tr => tr.notes.countP fun n => decide ((1 : ℚ) ≤ n.time)).sum ∧
      ∀ id ∈ c4State.scheduledEvents,
        id ∉ (scheduleAllNotes [c4Track] 1 c4State).transport.map Prod.fst) :=
  ⟨by decide, C4_reschedule_exact [c4Track] 1 c4State (by decide)⟩

/-- C5, counterexample: on a file with two tracks that resolve to the same
library, the sampler-based `MidiHandler.loadInstruments` constructs 2 samplers
— one per note-bearing track — not 1 per distinct library, so its load count
does not equal the distinct-library count. -/
theorem C5_per_track_load_counterexample :
    (libsToLoad c5Tracks c5Manifest).length = 1 ∧
    handlerLoadInstruments c5Tracks c5Manifest = 2 ∧
    handlerLoadInstruments c5Tracks c5Manifest ≠ (libsToLoad c5Tracks c5Manifest).length := by
  refine ⟨?_, ?_, ?_⟩ <;> decide

/-- Folding the load loop over a duplicate-free worklist disjoint from the
cache loads every element exactly once. -/
theorem engineFold_fresh (l : List String) :
    ∀ (c : List String) (k : Nat), (∀ x ∈ l, x ∉ c) → l.Nodup →
      l.foldl (fun acc lib => if lib ∈ acc.1 then acc else (acc.1 ++ [lib], acc.2 + 1)) (c, k)
        = (c ++ l, k + l.length) := by
  induction l with
  | nil =>
    intro c k _ _
    simp
  | cons x l ih =>
    intro c k hdisj hnodup
    rw [List.foldl_cons, if_neg (hdisj x (List.mem_cons_self x l))]
    rw [ih (c ++ [x]) (k + 1) ?_ (List.Nodup.of_cons hnodup)]
    · rw [Prod.mk.injEq]
      constructor
      · simp
      · simp only [List.length_cons]
        omega
    · intro y hy
      rw [List.mem_append, List.mem_singleton]
      rintro (hc | rfl)
      · exact hdisj y (List.mem_cons_of_mem x hy) hc
      · exact (List.nodup_cons.mp hnodup).1 hy

/-- The JavaScript `Set` of libraries to load contains no duplicates. -/
theorem libsToLoad_nodup (tracks : List Track) (manifest : Manifest) :
    (libsToLoad tracks manifest).Nodup := by
  unfold libsToLoad
  refine foldl_preserve List.Nodup _ tracks [] List.nodup_nil ?_
  intro s tr _ hs
  split_ifs with h
  · unfold setAdd
    split_ifs with hmem
    · exact hs
    · simp [List.nodup_append, hs, hmem]
  · exact hs

/-- C5 (amended): in `MidiEngine.loadInstruments` — the library-cached engine
variant — starting from an empty sampler cache, the number of sampler
constructions equals the number of distinct resolved libraries of the
note-bearing non-percussion tracks; the per-track `MidiHandler.loadInstruments`
variant instead constructs one sampler per such track. -/
theorem C5_engine_load_dedup (tracks : List Track) (manifest : Manifest) :
    (engineLoadInstruments tracks manifest []).2 = (libsToLoad tracks manifest).length := by
  unfold engineLoadInstruments
  rw [engineFold_fresh (libsToLoad tracks manifest) [] 0
    (fun x _ => List.not_mem_nil x) (libsToLoad_nodup tracks manifest)]
  simp

end Proofs

end MusicVirt
